import Mathlib

/-!
Sliding puzzle (3x3): embedding of `Source.cpp`.

The board `int board[BOARD_ROWS][BOARD_COLS]` is a function from two indices
in `0..2` to an integer.  Functions that write to the array return the new
array next to their C return value.  The C `int` cells are never used in
arithmetic (only the counters `currentTile` and `expectedValue`, which stay
below 10), so cells are `Int`.
-/

namespace SlidingPuzzle

/-! ## Constants -/

/-- Number of rows in the game board. -/
abbrev BOARD_ROWS : Nat := 3

/-- Number of columns in the game board. -/
abbrev BOARD_COLS : Nat := 3

/-- Value representing the empty tile. -/
def SPACE_EMPTY : Int := -1

/-- Code for moving a tile up. -/
def MOVE_TILE_UP : Int := 1

/-- Code for moving a tile down. -/
def MOVE_TILE_DOWN : Int := 2

/-- Code for moving a tile left. -/
def MOVE_TILE_LEFT : Int := 3

/-- Code for moving a tile right. -/
def MOVE_TILE_RIGHT : Int := 4

/-- Code for an undefined direction. -/
def DIRECTION_UNDEFINED : Int := -1

/-- Symbol to display for the empty tile. -/
def EMPTY_TILE_SYMBOL : String := "*"

/-- Default console text color. -/
def COLOR_DEFAULT : Nat := 7

/-- Red color for misplaced tiles. -/
def COLOR_RED : Nat := 12

/-- Green color for correctly placed tiles. -/
def COLOR_GREEN : Nat := 10

/-! ## Data model -/

/-- The array `int board[BOARD_ROWS][BOARD_COLS]`. -/
abbrev Board := Fin BOARD_ROWS → Fin BOARD_COLS → Int

/-- The assignment `board[i][j] = v`. -/
def setCell (board : Board) (i : Fin BOARD_ROWS) (j : Fin BOARD_COLS) (v : Int) : Board :=
  fun a b => if a = i ∧ b = j then v else board a b

/-- The values taken by `i` in `for (int i = 0; i < BOARD_ROWS; i++)`. -/
def rowIdx : List (Fin BOARD_ROWS) := [0, 1, 2]

/-- The values taken by `j` in `for (int j = 0; j < BOARD_COLS; j++)`. -/
def colIdx : List (Fin BOARD_COLS) := [0, 1, 2]

/-- The nine cells in row-major order. -/
def cells (board : Board) : List Int :=
  [board 0 0, board 0 1, board 0 2,
   board 1 0, board 1 1, board 1 2,
   board 2 0, board 2 1, board 2 2]

/-- Number of cells of the board that hold `v`. -/
def countCells (board : Board) (v : Int) : Nat := (cells board).count v

/-! ## InitializeBoard -/

/-- Body of the inner loop of `InitializeBoard`; the state is the array and
`currentTile`. -/
def initStep (i : Fin BOARD_ROWS) (st : Board × Int) (j : Fin BOARD_COLS) : Board × Int :=
  if i.val = BOARD_ROWS - 1 ∧ j.val = BOARD_COLS - 1 then
    (setCell st.1 i j SPACE_EMPTY, st.2)
  else
    (setCell st.1 i j st.2, st.2 + 1)

/-- The function `InitializeBoard`: both loops run over the whole array, starting
with `currentTile = 1`; the argument is the prior content of the array. -/
def InitializeBoard (board : Board) : Board :=
  (rowIdx.foldl (fun st i => colIdx.foldl (initStep i) st) (board, 1)).1

/-! ## moveTile -/

/-- Inner loop of the scan for the empty tile in row `i`, over the remaining
columns.  The result `none` stands for `emptyRow == -1 && emptyCol == -1` (the
two variables are only ever assigned together), `some (i, j)` for
`emptyRow = i; emptyCol = j; break`. -/
def scanCols (board : Board) (i : Fin BOARD_ROWS) :
    List (Fin BOARD_COLS) → Option (Fin BOARD_ROWS × Fin BOARD_COLS)
  | [] => none
  | j :: js => if board i j = SPACE_EMPTY then some (i, j) else scanCols board i js

/-- Outer loop of the scan, over the remaining rows; it stops after the first
row in which `emptyRow` was set (`if (emptyRow != -1) break`). -/
def scanRows (board : Board) :
    List (Fin BOARD_ROWS) → Option (Fin BOARD_ROWS × Fin BOARD_COLS)
  | [] => none
  | i :: is =>
    match scanCols board i colIdx with
    | some p => some p
    | none => scanRows board is

/-- The scan at the start of `moveTile` ("Find the empty tile"). -/
def findEmpty (board : Board) : Option (Fin BOARD_ROWS × Fin BOARD_COLS) :=
  scanRows board rowIdx

/-- The function `moveTile`: the returned pair is the C return value and the
array after the call. -/
def moveTile (board : Board) (direction : Int) : Bool × Board :=
  match findEmpty board with
  | none => (false, board)
  | some (emptyRow, emptyCol) =>
    if direction = MOVE_TILE_UP then
      if h : emptyRow.val > 0 then
        let up : Fin BOARD_ROWS := ⟨emptyRow.val - 1, by omega⟩
        let b1 := setCell board emptyRow emptyCol (board up emptyCol)
        (true, setCell b1 up emptyCol SPACE_EMPTY)
      else (false, board)
    else if direction = MOVE_TILE_DOWN then
      if h : emptyRow.val < BOARD_ROWS - 1 then
        let down : Fin BOARD_ROWS := ⟨emptyRow.val + 1, by omega⟩
        let b1 := setCell board emptyRow emptyCol (board down emptyCol)
        (true, setCell b1 down emptyCol SPACE_EMPTY)
      else (false, board)
    else if direction = MOVE_TILE_LEFT then
      if h : emptyCol.val > 0 then
        let left : Fin BOARD_COLS := ⟨emptyCol.val - 1, by omega⟩
        let b1 := setCell board emptyRow emptyCol (board emptyRow left)
        (true, setCell b1 emptyRow left SPACE_EMPTY)
      else (false, board)
    else if direction = MOVE_TILE_RIGHT then
      if h : emptyCol.val < BOARD_COLS - 1 then
        let right : Fin BOARD_COLS := ⟨emptyCol.val + 1, by omega⟩
        let b1 := setCell board emptyRow emptyCol (board emptyRow right)
        (true, setCell b1 emptyRow right SPACE_EMPTY)
      else (false, board)
    else (false, board)

/-- A finite sequence of `moveTile` calls on the same array, return values
ignored. -/
def applyMoves (board : Board) (dirs : List Int) : Board :=
  dirs.foldl (fun b d => (moveTile b d).2) board

/-! ## shuffleBoard -/

/-- The function `shuffleBoard`: `moves = 100` calls of `moveTile`, return values
ignored; `rand i` is the (non-negative) value returned by the call of `rand()`
in iteration `i`. -/
def shuffleBoard (board : Board) (rand : Nat → Nat) : Board :=
  (List.range 100).foldl (fun b i => (moveTile b ((rand i : Int) % 4 + 1)).2) board

/-! ## checkIfSolved -/

/-- Inner loop of `checkIfSolved` for row `i` over the remaining columns, with
the current `expectedValue`: `Sum.inl b` is `return b`, `Sum.inr e` is the end
of the loop with `expectedValue = e`. -/
def checkCols (board : Board) (i : Fin BOARD_ROWS) :
    List (Fin BOARD_COLS) → Int → Bool ⊕ Int
  | [], expectedValue => Sum.inr expectedValue
  | j :: js, expectedValue =>
    if i.val = BOARD_ROWS - 1 ∧ j.val = BOARD_COLS - 1 then
      Sum.inl (board i j == SPACE_EMPTY)
    else if board i j ≠ expectedValue then
      Sum.inl false
    else
      checkCols board i js (expectedValue + 1)

/-- Outer loop of `checkIfSolved`; falling out of it is the final
`return true`. -/
def checkRows (board : Board) : List (Fin BOARD_ROWS) → Int → Bool
  | [], _ => true
  | i :: is, expectedValue =>
    match checkCols board i colIdx expectedValue with
    | Sum.inl b => b
    | Sum.inr e => checkRows board is e

/-- The function `checkIfSolved`: the returned pair is the C return value and
the array after the call (no statement of the function writes to it). -/
def checkIfSolved (board : Board) : Bool × Board :=
  (checkRows board rowIdx 1, board)

/-! ## PrintBoard -/

/-- The output of `cout << setw(n) << s`: the text right-justified in a field of
`n` characters, filled with blanks, never truncated. -/
def setw (n : Nat) (s : String) : String :=
  String.mk (List.replicate (n - s.length) ' ') ++ s

/-- What `PrintBoard` writes for the cell `(i, j)` between two bars: the text
and the console colour set by `SetConsoleTextAttribute` when it is written. -/
def printCell (board : Board) (i : Fin BOARD_ROWS) (j : Fin BOARD_COLS) : String × Nat :=
  if board i j = SPACE_EMPTY then
    (" " ++ EMPTY_TILE_SYMBOL ++ " ", COLOR_RED)
  else
    let expectedValue : Int := (i.val : Int) * (BOARD_COLS : Int) + (j.val : Int) + 1
    if board i j = expectedValue then
      (setw 3 (toString (board i j)), COLOR_GREEN)
    else
      (setw 3 (toString (board i j)), COLOR_RED)

/-- The function `PrintBoard` as a function of the grid: the rows of cells it
writes, in order (the bars and the separator lines do not depend on the grid). -/
def PrintBoard (board : Board) : List (List (String × Nat)) :=
  rowIdx.map (fun i => colIdx.map (fun j => printCell board i j))

/-! ## The game loop of main -/

/-- The `switch (keyStroke)` of `main`: the value assigned to `directionCode`. -/
def keyDirection (keyStroke : Char) : Int :=
  if keyStroke = 'w' then MOVE_TILE_UP
  else if keyStroke = 's' then MOVE_TILE_DOWN
  else if keyStroke = 'a' then MOVE_TILE_LEFT
  else if keyStroke = 'd' then MOVE_TILE_RIGHT
  else DIRECTION_UNDEFINED

/-- What one run of the body of the game loop leaves behind. -/
structure Iteration where
  /-- The array `slidingBoard` after the body. -/
  board : Board
  /-- The key presses not yet read. -/
  keys : List Char
  /-- The direction arguments of the calls of `moveTile` made by the body. -/
  moveCalls : List Int
  /-- Whether "OUT OF BOUNDS! TRY AGAIN." was written. -/
  outOfBounds : Bool
  /-- Whether the body waits in `_getch()` for a key press that does not come. -/
  blocked : Bool

/-- The body of the game loop after `keyStroke = _getche()`; `keys` are the key
presses that follow.  After a failed move the body reads one more key with
`_getch()`. -/
def loopBody (board : Board) (keyStroke : Char) (keys : List Char) : Iteration :=
  let directionCode := keyDirection keyStroke
  if directionCode ≠ DIRECTION_UNDEFINED then
    let moved := moveTile board directionCode
    if moved.1 = false then
      match keys with
      | [] => ⟨moved.2, [], [directionCode], true, true⟩
      | _ :: rest => ⟨moved.2, rest, [directionCode], true, false⟩
    else ⟨moved.2, keys, [directionCode], false, false⟩
  else ⟨board, keys, [], false, false⟩

/-- Where the game loop stands once the given key presses are used up or the
loop has ended. -/
structure LoopResult where
  /-- The array `slidingBoard`. -/
  board : Board
  /-- The key presses not read by the loop. -/
  keys : List Char
  /-- The contents of `slidingBoard` each time the loop body was entered, in
  order. -/
  entered : List Board
  /-- Whether the loop condition was found false, so that control reached
  "Game completed"; otherwise the program waits for a key press. -/
  exited : Bool

/-- The loop `while (!checkIfSolved(slidingBoard))` of `main` on a finite
sequence of key presses. -/
def gameLoop (board : Board) (keys : List Char) : LoopResult :=
  if (checkIfSolved board).1 = true then ⟨board, keys, [], true⟩
  else
    match keys with
    | [] => ⟨board, [], [board], false⟩
    | keyStroke :: rest =>
      if (loopBody board keyStroke rest).blocked = true then
        ⟨(loopBody board keyStroke rest).board, (loopBody board keyStroke rest).keys, [board],
          false⟩
      else
        let r := gameLoop (loopBody board keyStroke rest).board (loopBody board keyStroke rest).keys
        ⟨r.board, r.keys, board :: r.entered, r.exited⟩
termination_by keys.length
decreasing_by
  simp only [List.length_cons, loopBody]
  split_ifs <;> cases rest <;> first | (simp; done) | (simp; omega)

/-- One call made on the board between `InitializeBoard` and the game loop or
in it: `moveTile` with a direction code, or `shuffleBoard` with the values its
calls of `rand()` return. -/
inductive Call where
  | move (direction : Int)
  | shuffle (rand : Nat → Nat)

/-- A finite sequence of `moveTile` and `shuffleBoard` calls on the same array. -/
def applyCalls (board : Board) (calls : List Call) : Board :=
  calls.foldl (fun b call =>
    match call with
    | Call.move direction => (moveTile b direction).2
    | Call.shuffle rand => shuffleBoard b rand) board

/-! ## Vocabulary of the properties -/

/-- The grid with rows `[1,2,3] / [4,5,6] / [7,8,SPACE_EMPTY]`. -/
def solvedBoard : Board :=
  fun i j => if i = 2 ∧ j = 2 then SPACE_EMPTY else (i.val : Int) * 3 + (j.val : Int) + 1

/-- The grid given by its nine cells in row-major order. -/
def ofCells (a b c d e f g h k : Int) : Board :=
  fun i j =>
    match i.val, j.val with
    | 0, 0 => a | 0, 1 => b | 0, 2 => c
    | 1, 0 => d | 1, 1 => e | 1, 2 => f
    | 2, 0 => g | 2, 1 => h | _, _ => k

/-- The cell `(r, c)` is the only cell of the board that holds `SPACE_EMPTY`. -/
def EmptyAt (board : Board) (r : Fin BOARD_ROWS) (c : Fin BOARD_COLS) : Prop :=
  board r c = SPACE_EMPTY ∧ ∀ i j, board i j = SPACE_EMPTY → i = r ∧ j = c

/-- The direction is one of the four codes and, with the empty cell at
`(r, c)`, the move would take the empty cell off the grid. -/
def OffGrid (direction : Int) (r : Fin BOARD_ROWS) (c : Fin BOARD_COLS) : Prop :=
  (direction = MOVE_TILE_UP ∧ r.val = 0) ∨
  (direction = MOVE_TILE_DOWN ∧ r.val = BOARD_ROWS - 1) ∨
  (direction = MOVE_TILE_LEFT ∧ c.val = 0) ∨
  (direction = MOVE_TILE_RIGHT ∧ c.val = BOARD_COLS - 1)

/-- The direction is one of the four codes and is valid with the empty cell at
`(r, c)`: Up unless the empty cell is in row 0, Down unless it is in the last
row, Left unless it is in column 0, Right unless it is in the last column. -/
def ValidAt (direction : Int) (r : Fin BOARD_ROWS) (c : Fin BOARD_COLS) : Prop :=
  (direction = MOVE_TILE_UP ∧ r.val ≠ 0) ∨
  (direction = MOVE_TILE_DOWN ∧ r.val ≠ BOARD_ROWS - 1) ∨
  (direction = MOVE_TILE_LEFT ∧ c.val ≠ 0) ∨
  (direction = MOVE_TILE_RIGHT ∧ c.val ≠ BOARD_COLS - 1)

/-- The code is one of the four direction codes. -/
def IsDirection (direction : Int) : Prop :=
  direction = MOVE_TILE_UP ∨ direction = MOVE_TILE_DOWN ∨
  direction = MOVE_TILE_LEFT ∨ direction = MOVE_TILE_RIGHT

/-- The source cell of a move as the specification words it: with the empty
cell at `(r, c)`, Up takes the tile at `(r-1, c)`, Down the one at `(r+1, c)`,
Left the one at `(r, c-1)`, Right the one at `(r, c+1)`; `none` when that cell
is off the grid or the code is not one of the four directions. -/
def specSource (direction : Int) (r : Fin BOARD_ROWS) (c : Fin BOARD_COLS) :
    Option (Fin BOARD_ROWS × Fin BOARD_COLS) :=
  if direction = MOVE_TILE_UP then
    if h : 0 < r.val then some (⟨r.val - 1, by omega⟩, c) else none
  else if direction = MOVE_TILE_DOWN then
    if h : r.val + 1 < BOARD_ROWS then some (⟨r.val + 1, h⟩, c) else none
  else if direction = MOVE_TILE_LEFT then
    if h : 0 < c.val then some (r, ⟨c.val - 1, by omega⟩) else none
  else if direction = MOVE_TILE_RIGHT then
    if h : c.val + 1 < BOARD_COLS then some (r, ⟨c.val + 1, h⟩) else none
  else none

/-- The opposite direction code (Up and Down, Left and Right). -/
def oppositeDirection (direction : Int) : Int :=
  if direction = MOVE_TILE_UP then MOVE_TILE_DOWN
  else if direction = MOVE_TILE_DOWN then MOVE_TILE_UP
  else if direction = MOVE_TILE_LEFT then MOVE_TILE_RIGHT
  else if direction = MOVE_TILE_RIGHT then MOVE_TILE_LEFT
  else direction

/-- The nine positions in row-major order. -/
def allCells : List (Fin BOARD_ROWS × Fin BOARD_COLS) :=
  [(0, 0), (0, 1), (0, 2), (1, 0), (1, 1), (1, 2), (2, 0), (2, 1), (2, 2)]

/-- The board with the contents of two positions exchanged. -/
def swapCells (board : Board) (p q : Fin BOARD_ROWS × Fin BOARD_COLS) : Board :=
  fun a b => board (Equiv.swap p q (a, b)).1 (Equiv.swap p q (a, b)).2

/-- The board is the solved grid rearranged by the permutation `σ` of the nine
positions: the cell `(a, b)` holds what the solved grid holds at `σ (a, b)`. -/
def IsArrangement (board : Board) (σ : Equiv.Perm (Fin BOARD_ROWS × Fin BOARD_COLS)) : Prop :=
  ∀ a b, board a b = solvedBoard (σ (a, b)).1 (σ (a, b)).2

/-! ## Lemmas on the scan -/

theorem mem_rowIdx (i : Fin BOARD_ROWS) : i ∈ rowIdx := by
  fin_cases i <;> decide

theorem mem_colIdx (j : Fin BOARD_COLS) : j ∈ colIdx := by
  fin_cases j <;> decide

theorem scanCols_some {board : Board} {i : Fin BOARD_ROWS} {js : List (Fin BOARD_COLS)}
    {p : Fin BOARD_ROWS × Fin BOARD_COLS} (h : scanCols board i js = some p) :
    board p.1 p.2 = SPACE_EMPTY := by
  induction js with
  | nil => simp [scanCols] at h
  | cons j js ih =>
    simp only [scanCols] at h
    split_ifs at h with hc
    · cases h; exact hc
    · exact ih h

theorem scanCols_none {board : Board} {i : Fin BOARD_ROWS} {js : List (Fin BOARD_COLS)}
    (h : scanCols board i js = none) : ∀ j ∈ js, board i j ≠ SPACE_EMPTY := by
  induction js with
  | nil => simp
  | cons j js ih =>
    simp only [scanCols] at h
    split_ifs at h with hc
    intro k hk
    rcases List.mem_cons.1 hk with rfl | hk
    · exact hc
    · exact ih h k hk

theorem scanRows_some {board : Board} {is : List (Fin BOARD_ROWS)}
    {p : Fin BOARD_ROWS × Fin BOARD_COLS} (h : scanRows board is = some p) :
    board p.1 p.2 = SPACE_EMPTY := by
  induction is with
  | nil => simp [scanRows] at h
  | cons i is ih =>
    simp only [scanRows] at h
    cases hc : scanCols board i colIdx with
    | none => rw [hc] at h; exact ih h
    | some q => rw [hc] at h; cases h; exact scanCols_some hc

theorem scanRows_none {board : Board} {is : List (Fin BOARD_ROWS)}
    (h : scanRows board is = none) : ∀ i ∈ is, ∀ j, board i j ≠ SPACE_EMPTY := by
  induction is with
  | nil => simp
  | cons i is ih =>
    simp only [scanRows] at h
    cases hc : scanCols board i colIdx with
    | some q => rw [hc] at h; cases h
    | none =>
      rw [hc] at h
      intro k hk j
      rcases List.mem_cons.1 hk with rfl | hk
      · exact scanCols_none hc j (mem_colIdx j)
      · exact ih h k hk j

theorem findEmpty_none {board : Board} (h : findEmpty board = none) :
    ∀ i j, board i j ≠ SPACE_EMPTY :=
  fun i j => scanRows_none h i (mem_rowIdx i) j

theorem findEmpty_some_cell {board : Board} {r : Fin BOARD_ROWS} {c : Fin BOARD_COLS}
    (h : findEmpty board = some (r, c)) : board r c = SPACE_EMPTY :=
  scanRows_some h

theorem findEmpty_eq_none_iff (board : Board) :
    findEmpty board = none ↔ ∀ i j, board i j ≠ SPACE_EMPTY := by
  constructor
  · exact findEmpty_none
  · intro h
    cases hf : findEmpty board with
    | none => rfl
    | some p => exact absurd (findEmpty_some_cell hf) (h p.1 p.2)

theorem findEmpty_of_emptyAt {board : Board} {r : Fin BOARD_ROWS} {c : Fin BOARD_COLS}
    (h : EmptyAt board r c) : findEmpty board = some (r, c) := by
  obtain ⟨h1, h2⟩ := h
  cases hf : findEmpty board with
  | none => exact absurd h1 (findEmpty_none hf r c)
  | some p =>
    obtain ⟨i, j⟩ := p
    obtain ⟨hi, hj⟩ := h2 i j (findEmpty_some_cell hf)
    rw [hi, hj]

/-! ## Lemmas on one move -/

theorem moveTile_of_findEmpty_none {board : Board} (h : findEmpty board = none)
    (direction : Int) : moveTile board direction = (false, board) := by
  unfold moveTile
  rw [h]

theorem moveTile_of_findEmpty {board : Board} {r : Fin BOARD_ROWS} {c : Fin BOARD_COLS}
    (hf : findEmpty board = some (r, c)) (direction : Int) :
    moveTile board direction =
      match specSource direction r c with
      | none => (false, board)
      | some s => (true, setCell (setCell board r c (board s.1 s.2)) s.1 s.2 SPACE_EMPTY) := by
  unfold moveTile specSource
  rw [hf]
  simp only
  split_ifs <;> first | rfl | omega

theorem specSource_of_offGrid {direction : Int} {r : Fin BOARD_ROWS} {c : Fin BOARD_COLS}
    (h : OffGrid direction r c) : specSource direction r c = none := by
  unfold OffGrid at h
  unfold specSource
  simp only [MOVE_TILE_UP, MOVE_TILE_DOWN, MOVE_TILE_LEFT, MOVE_TILE_RIGHT, BOARD_ROWS,
    BOARD_COLS] at *
  split_ifs <;> first | rfl | omega

theorem offGrid_of_specSource {direction : Int} {r : Fin BOARD_ROWS} {c : Fin BOARD_COLS}
    (hd : IsDirection direction) (h : specSource direction r c = none) :
    OffGrid direction r c := by
  unfold specSource at h
  unfold OffGrid
  unfold IsDirection at hd
  simp only [MOVE_TILE_UP, MOVE_TILE_DOWN, MOVE_TILE_LEFT, MOVE_TILE_RIGHT, BOARD_ROWS,
    BOARD_COLS] at *
  split_ifs at h <;> omega

theorem specSource_of_validAt {direction : Int} {r : Fin BOARD_ROWS} {c : Fin BOARD_COLS}
    (h : ValidAt direction r c) : ∃ s, specSource direction r c = some s := by
  unfold ValidAt at h
  unfold specSource
  simp only [MOVE_TILE_UP, MOVE_TILE_DOWN, MOVE_TILE_LEFT, MOVE_TILE_RIGHT, BOARD_ROWS,
    BOARD_COLS] at *
  have hr : r.val < 3 := r.isLt
  have hc : c.val < 3 := c.isLt
  split_ifs <;> first | exact ⟨_, rfl⟩ | omega

theorem specSource_coords {direction : Int} {r : Fin BOARD_ROWS} {c : Fin BOARD_COLS}
    {s : Fin BOARD_ROWS × Fin BOARD_COLS} (h : specSource direction r c = some s) :
    (direction = MOVE_TILE_UP → s.1.val + 1 = r.val ∧ s.2 = c) ∧
    (direction = MOVE_TILE_DOWN → s.1.val = r.val + 1 ∧ s.2 = c) ∧
    (direction = MOVE_TILE_LEFT → s.1 = r ∧ s.2.val + 1 = c.val) ∧
    (direction = MOVE_TILE_RIGHT → s.1 = r ∧ s.2.val = c.val + 1) := by
  unfold specSource at h
  simp only [MOVE_TILE_UP, MOVE_TILE_DOWN, MOVE_TILE_LEFT, MOVE_TILE_RIGHT] at *
  split_ifs at h <;> simp only [Option.some.injEq, reduceCtorEq] at h <;> subst h <;>
    refine ⟨?_, ?_, ?_, ?_⟩ <;> intro hd <;>
    first
    | omega
    | (refine ⟨?_, ?_⟩ <;> first | rfl | (simp only; omega))

theorem specSource_ne {direction : Int} {r : Fin BOARD_ROWS} {c : Fin BOARD_COLS}
    {s : Fin BOARD_ROWS × Fin BOARD_COLS} (h : specSource direction r c = some s) :
    s ≠ (r, c) := by
  unfold specSource at h
  split_ifs at h <;> simp only [Option.some.injEq, reduceCtorEq] at h <;> subst h <;>
    simp only [ne_eq, Prod.mk.injEq, Fin.ext_iff] <;> omega

theorem setCell_swap {board : Board} {p q : Fin BOARD_ROWS × Fin BOARD_COLS}
    (hp : board p.1 p.2 = SPACE_EMPTY) (hne : q ≠ p) :
    setCell (setCell board p.1 p.2 (board q.1 q.2)) q.1 q.2 SPACE_EMPTY = swapCells board p q := by
  funext a b
  simp only [setCell, swapCells, Equiv.swap_apply_def]
  by_cases h1 : (a, b) = q
  · have h1' : a = q.1 ∧ b = q.2 := by rw [← h1]; exact ⟨rfl, rfl⟩
    have h2 : ¬ (a, b) = p := fun h => hne (h1.symm.trans h)
    rw [if_pos h1', if_neg h2, if_pos h1, hp]
  · have h1' : ¬ (a = q.1 ∧ b = q.2) := fun h => h1 (Prod.ext h.1 h.2)
    rw [if_neg h1']
    by_cases h2 : (a, b) = p
    · have h2' : a = p.1 ∧ b = p.2 := by rw [← h2]; exact ⟨rfl, rfl⟩
      rw [if_pos h2', if_pos h2]
    · have h2' : ¬ (a = p.1 ∧ b = p.2) := fun h => h2 (Prod.ext h.1 h.2)
      rw [if_neg h2', if_neg h2, if_neg h1]

theorem mem_allCells (x : Fin BOARD_ROWS × Fin BOARD_COLS) : x ∈ allCells := by
  obtain ⟨a, b⟩ := x
  fin_cases a <;> fin_cases b <;> decide

theorem cells_swapCells_perm (board : Board) (p q : Fin BOARD_ROWS × Fin BOARD_COLS) :
    (cells (swapCells board p q)).Perm (cells board) := by
  have h1 : cells board = allCells.map (fun x => board x.1 x.2) := rfl
  have h2 : cells (swapCells board p q)
      = (allCells.map (Equiv.swap p q)).map (fun x => board x.1 x.2) := by
    rw [List.map_map]; rfl
  rw [h1, h2]
  apply List.Perm.map
  have hnd : allCells.Nodup := by decide
  rw [List.perm_ext_iff_of_nodup (hnd.map (Equiv.swap p q).injective) hnd]
  intro x
  constructor
  · intro _; exact mem_allCells x
  · intro _
    exact List.mem_map.2 ⟨Equiv.swap p q x, mem_allCells _, Equiv.swap_apply_self p q x⟩

/-- One call of `moveTile` on any board permutes the nine cell values. -/
theorem moveTile_cells_perm (board : Board) (direction : Int) :
    (cells (moveTile board direction).2).Perm (cells board) := by
  cases hf : findEmpty board with
  | none => rw [moveTile_of_findEmpty_none hf]
  | some p =>
    obtain ⟨r, c⟩ := p
    rw [moveTile_of_findEmpty hf]
    cases hs : specSource direction r c with
    | none => exact List.Perm.refl _
    | some s =>
      have hsw := @setCell_swap board (r, c) s (findEmpty_some_cell hf) (specSource_ne hs)
      simp only at hsw ⊢
      rw [hsw]
      exact cells_swapCells_perm board (r, c) s

theorem applyMoves_cells_perm (board : Board) (dirs : List Int) :
    (cells (applyMoves board dirs)).Perm (cells board) := by
  induction dirs generalizing board with
  | nil => exact List.Perm.refl _
  | cons d ds ih =>
    exact (ih (moveTile board d).2).trans (moveTile_cells_perm board d)

/-! ## Lemmas on boards with exactly one empty cell -/

theorem moveTile_of_emptyAt_some {board : Board} {r : Fin BOARD_ROWS} {c : Fin BOARD_COLS}
    {direction : Int} {s : Fin BOARD_ROWS × Fin BOARD_COLS} (h : EmptyAt board r c)
    (hs : specSource direction r c = some s) :
    moveTile board direction = (true, swapCells board (r, c) s) := by
  rw [moveTile_of_findEmpty (findEmpty_of_emptyAt h), hs]
  have hsw := @setCell_swap board (r, c) s h.1 (specSource_ne hs)
  simp only at hsw ⊢
  rw [hsw]

theorem moveTile_of_emptyAt_none {board : Board} {r : Fin BOARD_ROWS} {c : Fin BOARD_COLS}
    {direction : Int} (h : EmptyAt board r c) (hs : specSource direction r c = none) :
    moveTile board direction = (false, board) := by
  rw [moveTile_of_findEmpty (findEmpty_of_emptyAt h), hs]

theorem swapCells_swapCells (board : Board) (p q : Fin BOARD_ROWS × Fin BOARD_COLS) :
    swapCells (swapCells board p q) q p = board := by
  funext a b
  simp only [swapCells, Equiv.swap_comm q p, Prod.mk.eta, Equiv.swap_apply_self]

theorem swapCells_left (board : Board) (p q : Fin BOARD_ROWS × Fin BOARD_COLS) :
    swapCells board p q p.1 p.2 = board q.1 q.2 := by
  simp only [swapCells, Prod.mk.eta, Equiv.swap_apply_left]

theorem swapCells_right (board : Board) (p q : Fin BOARD_ROWS × Fin BOARD_COLS) :
    swapCells board p q q.1 q.2 = board p.1 p.2 := by
  simp only [swapCells, Prod.mk.eta, Equiv.swap_apply_right]

theorem swapCells_of_ne (board : Board) {p q : Fin BOARD_ROWS × Fin BOARD_COLS}
    {a : Fin BOARD_ROWS} {b : Fin BOARD_COLS} (hp : (a, b) ≠ p) (hq : (a, b) ≠ q) :
    swapCells board p q a b = board a b := by
  simp only [swapCells, Equiv.swap_apply_of_ne_of_ne hp hq]

theorem source_not_empty {board : Board} {r : Fin BOARD_ROWS} {c : Fin BOARD_COLS}
    {s : Fin BOARD_ROWS × Fin BOARD_COLS} (h : EmptyAt board r c) (hne : s ≠ (r, c)) :
    board s.1 s.2 ≠ SPACE_EMPTY := by
  intro he
  obtain ⟨h1, h2⟩ := h.2 s.1 s.2 he
  exact hne (Prod.ext h1 h2)

theorem swapCells_emptyAt {board : Board} {r : Fin BOARD_ROWS} {c : Fin BOARD_COLS}
    {s : Fin BOARD_ROWS × Fin BOARD_COLS} (h : EmptyAt board r c) :
    EmptyAt (swapCells board (r, c) s) s.1 s.2 := by
  constructor
  · simp only [swapCells, Equiv.swap_apply_right]
    exact h.1
  · intro i j hij
    simp only [swapCells] at hij
    have h2 := h.2 _ _ hij
    have h3 : Equiv.swap (r, c) s (i, j) = (r, c) := Prod.ext h2.1 h2.2
    have h4 : (i, j) = s := by
      have := congrArg (Equiv.swap (r, c) s) h3
      rw [Equiv.swap_apply_self, Equiv.swap_apply_left] at this
      exact this
    rw [← h4]
    exact ⟨rfl, rfl⟩

theorem specSource_opposite {direction : Int} {r : Fin BOARD_ROWS} {c : Fin BOARD_COLS}
    {s : Fin BOARD_ROWS × Fin BOARD_COLS} (h : specSource direction r c = some s) :
    specSource (oppositeDirection direction) s.1 s.2 = some (r, c) := by
  unfold specSource at h
  split_ifs at h with h1 h2 h3 h4 h5 h6 h7 h8 <;>
    simp only [Option.some.injEq, reduceCtorEq] at h <;> subst h <;> subst_vars <;>
    fin_cases r <;> fin_cases c <;>
    first | rfl | omega | exact absurd h2 (by decide) | exact absurd h6 (by decide)

/-- A successful move is undone by the move in the opposite direction. -/
theorem moveTile_opposite {board : Board} {r : Fin BOARD_ROWS} {c : Fin BOARD_COLS}
    {direction : Int} {s : Fin BOARD_ROWS × Fin BOARD_COLS} (h : EmptyAt board r c)
    (hs : specSource direction r c = some s) :
    moveTile (moveTile board direction).2 (oppositeDirection direction) = (true, board) := by
  rw [moveTile_of_emptyAt_some h hs]
  simp only
  rw [moveTile_of_emptyAt_some (swapCells_emptyAt h) (specSource_opposite hs),
    swapCells_swapCells]

/-- One call of `moveTile` keeps the property that exactly one cell is empty. -/
theorem moveTile_emptyAt {board : Board} (h : ∃ r c, EmptyAt board r c) (direction : Int) :
    ∃ r c, EmptyAt (moveTile board direction).2 r c := by
  obtain ⟨r, c, hrc⟩ := h
  cases hs : specSource direction r c with
  | none => rw [moveTile_of_emptyAt_none hrc hs]; exact ⟨r, c, hrc⟩
  | some s => rw [moveTile_of_emptyAt_some hrc hs]; exact ⟨s.1, s.2, swapCells_emptyAt hrc⟩

theorem applyMoves_emptyAt {board : Board} (h : ∃ r c, EmptyAt board r c) (dirs : List Int) :
    ∃ r c, EmptyAt (applyMoves board dirs) r c := by
  induction dirs generalizing board with
  | nil => exact h
  | cons d ds ih => exact ih (moveTile_emptyAt h d)

theorem applyMoves_append (board : Board) (ds es : List Int) :
    applyMoves board (ds ++ es) = applyMoves (applyMoves board ds) es := by
  simp [applyMoves, List.foldl_append]

/-! ## Lemmas on InitializeBoard and checkIfSolved -/

theorem initializeBoard_eq (board : Board) : InitializeBoard board = solvedBoard := by
  funext i j
  fin_cases i <;> fin_cases j <;> rfl

theorem solvedBoard_emptyAt : EmptyAt solvedBoard 2 2 := by
  unfold EmptyAt
  decide

theorem checkIfSolved_true_iff (board : Board) :
    (checkIfSolved board).1 = true ↔
      (board 0 0 = 1 ∧ board 0 1 = 2 ∧ board 0 2 = 3 ∧
       board 1 0 = 4 ∧ board 1 1 = 5 ∧ board 1 2 = 6 ∧
       board 2 0 = 7 ∧ board 2 1 = 8 ∧ board 2 2 = SPACE_EMPTY) := by
  have e0 : ((0 : Fin BOARD_ROWS).val = BOARD_ROWS - 1) = False := by decide
  have e1 : ((1 : Fin BOARD_ROWS).val = BOARD_ROWS - 1) = False := by decide
  have e2 : ((2 : Fin BOARD_ROWS).val = BOARD_ROWS - 1) = True := by decide
  have c0 : ((0 : Fin BOARD_COLS).val = BOARD_COLS - 1) = False := by decide
  have c1 : ((1 : Fin BOARD_COLS).val = BOARD_COLS - 1) = False := by decide
  have c2 : ((2 : Fin BOARD_COLS).val = BOARD_COLS - 1) = True := by decide
  simp only [checkIfSolved, checkRows, checkCols, rowIdx, colIdx, e0, e1, e2, c0, c1, c2,
    false_and, and_false, and_self, if_false, if_true, ne_eq]
  by_cases h00 : board 0 0 = 1
  swap
  · simp [h00]
  by_cases h01 : board 0 1 = 2
  swap
  · simp [h00, h01]
  by_cases h02 : board 0 2 = 3
  swap
  · simp [h00, h01, h02]
  by_cases h10 : board 1 0 = 4
  swap
  · simp [h00, h01, h02, h10]
  by_cases h11 : board 1 1 = 5
  swap
  · simp [h00, h01, h02, h10, h11]
  by_cases h12 : board 1 2 = 6
  swap
  · simp [h00, h01, h02, h10, h11, h12]
  by_cases h20 : board 2 0 = 7
  swap
  · simp [h00, h01, h02, h10, h11, h12, h20]
  by_cases h21 : board 2 1 = 8
  swap
  · simp [h00, h01, h02, h10, h11, h12, h20, h21]
  simp [h00, h01, h02, h10, h11, h12, h20, h21]

theorem checkIfSolved_iff_solvedBoard (board : Board) :
    (checkIfSolved board).1 = true ↔ board = solvedBoard := by
  rw [checkIfSolved_true_iff]
  constructor
  · rintro ⟨h0, h1, h2, h3, h4, h5, h6, h7, h8⟩
    funext i j
    fin_cases i <;> fin_cases j <;>
      first | exact h0 | exact h1 | exact h2 | exact h3 | exact h4 | exact h5 | exact h6
            | exact h7 | exact h8
  · rintro rfl
    decide

/-! ## Lemmas on sequences of moves -/

theorem shuffleBoard_eq_applyMoves (board : Board) (rand : Nat → Nat) :
    shuffleBoard board rand
      = applyMoves board ((List.range 100).map (fun i => (rand i : Int) % 4 + 1)) := by
  simp only [shuffleBoard, applyMoves, List.foldl_map]

/-- Every sequence of moves on a board with exactly one empty cell can be
undone by a sequence of moves. -/
theorem applyMoves_undo {board : Board} (h : ∃ r c, EmptyAt board r c) (dirs : List Int) :
    ∃ back, applyMoves (applyMoves board dirs) back = board := by
  induction dirs generalizing board with
  | nil => exact ⟨[], rfl⟩
  | cons d ds ih =>
    obtain ⟨r, c, hrc⟩ := h
    obtain ⟨back, hb⟩ := ih (moveTile_emptyAt ⟨r, c, hrc⟩ d)
    cases hs : specSource d r c with
    | none =>
      refine ⟨back, ?_⟩
      show applyMoves (applyMoves (moveTile board d).2 ds) back = board
      rw [hb, moveTile_of_emptyAt_none hrc hs]
    | some s =>
      refine ⟨back ++ [oppositeDirection d], ?_⟩
      show applyMoves (applyMoves (moveTile board d).2 ds) (back ++ [oppositeDirection d])
        = board
      rw [applyMoves_append, hb]
      show (moveTile (moveTile board d).2 (oppositeDirection d)).2 = board
      rw [moveTile_opposite hrc hs]

theorem initializeBoard_emptyAt (board : Board) : ∃ r c, EmptyAt (InitializeBoard board) r c :=
  ⟨2, 2, by rw [initializeBoard_eq]; exact solvedBoard_emptyAt⟩

theorem moveTile_false_unchanged (board : Board) (direction : Int)
    (h : (moveTile board direction).1 = false) : (moveTile board direction).2 = board := by
  cases hf : findEmpty board with
  | none => rw [moveTile_of_findEmpty_none hf]
  | some p =>
    obtain ⟨r, c⟩ := p
    rw [moveTile_of_findEmpty hf] at h ⊢
    cases hs : specSource direction r c with
    | none => rfl
    | some s => rw [hs] at h; cases h

theorem specSource_of_not_direction {direction : Int} (h : ¬ IsDirection direction)
    (r : Fin BOARD_ROWS) (c : Fin BOARD_COLS) : specSource direction r c = none := by
  unfold IsDirection at h
  unfold specSource
  split_ifs with h1 h2 h3 h4 h5 h6 h7 h8 <;> first | rfl | exact absurd (by tauto) h

theorem moveTile_of_not_direction (board : Board) {direction : Int}
    (h : ¬ IsDirection direction) : moveTile board direction = (false, board) := by
  cases hf : findEmpty board with
  | none => rw [moveTile_of_findEmpty_none hf]
  | some p =>
    obtain ⟨r, c⟩ := p
    rw [moveTile_of_findEmpty hf, specSource_of_not_direction h]

theorem isDirection_of_rand (n : Nat) : IsDirection ((n : Int) % 4 + 1) := by
  unfold IsDirection
  simp only [MOVE_TILE_UP, MOVE_TILE_DOWN, MOVE_TILE_LEFT, MOVE_TILE_RIGHT]
  omega

theorem applyCalls_emptyAt {board : Board} (h : ∃ r c, EmptyAt board r c) (calls : List Call) :
    ∃ r c, EmptyAt (applyCalls board calls) r c := by
  induction calls generalizing board with
  | nil => exact h
  | cons call calls ih =>
    cases call with
    | move direction => exact ih (moveTile_emptyAt h direction)
    | shuffle rand =>
      apply ih
      show ∃ r c, EmptyAt (shuffleBoard board rand) r c
      rw [shuffleBoard_eq_applyMoves]
      exact applyMoves_emptyAt h _

/-! ## Lemmas on the game loop -/

theorem keyDirection_of_unrecognized {keyStroke : Char}
    (h : keyStroke ≠ 'w' ∧ keyStroke ≠ 's' ∧ keyStroke ≠ 'a' ∧ keyStroke ≠ 'd') :
    keyDirection keyStroke = DIRECTION_UNDEFINED := by
  unfold keyDirection
  rw [if_neg h.1, if_neg h.2.1, if_neg h.2.2.1, if_neg h.2.2.2]

theorem loopBody_of_undefined {board : Board} {keyStroke : Char} (keys : List Char)
    (h : keyDirection keyStroke = DIRECTION_UNDEFINED) :
    loopBody board keyStroke keys = ⟨board, keys, [], false, false⟩ := by
  simp only [loopBody, h, ne_eq, not_true_eq_false, if_false]

theorem loopBody_of_failed {board : Board} {keyStroke : Char} (keys : List Char)
    (hk : keyDirection keyStroke ≠ DIRECTION_UNDEFINED)
    (hm : moveTile board (keyDirection keyStroke) = (false, board)) :
    (loopBody board keyStroke keys).outOfBounds = true ∧
    (loopBody board keyStroke keys).board = board ∧
    (loopBody board keyStroke keys).moveCalls = [keyDirection keyStroke] := by
  simp only [loopBody, hk, ne_eq, not_false_eq_true, if_true, hm]
  cases keys <;> exact ⟨rfl, rfl, rfl⟩

theorem gameLoop_of_solved {board : Board} (h : (checkIfSolved board).1 = true)
    (keys : List Char) : gameLoop board keys = ⟨board, keys, [], true⟩ := by
  rw [gameLoop.eq_def, if_pos h]

theorem gameLoop_of_unsolved {board : Board} (h : ¬ (checkIfSolved board).1 = true)
    (keys : List Char) : ∃ tail, (gameLoop board keys).entered = board :: tail := by
  rw [gameLoop.eq_def, if_neg h]
  cases keys with
  | nil => exact ⟨[], rfl⟩
  | cons k rest =>
    simp only
    split_ifs
    · exact ⟨[], rfl⟩
    · exact ⟨_, rfl⟩

theorem applyMoves_down_right (dirs : List Int)
    (h : ∀ d ∈ dirs, d = MOVE_TILE_DOWN ∨ d = MOVE_TILE_RIGHT) :
    applyMoves solvedBoard dirs = solvedBoard := by
  induction dirs with
  | nil => rfl
  | cons d ds ih =>
    have hd : OffGrid d 2 2 := by
      unfold OffGrid
      rcases h d (List.mem_cons_self d ds) with hd | hd
      · exact Or.inr (Or.inl ⟨hd, rfl⟩)
      · exact Or.inr (Or.inr (Or.inr ⟨hd, rfl⟩))
    show applyMoves (moveTile solvedBoard d).2 ds = solvedBoard
    rw [moveTile_of_emptyAt_none solvedBoard_emptyAt (specSource_of_offGrid hd)]
    exact ih (fun e he => h e (List.mem_cons_of_mem d he))

theorem printBoard_cell (board : Board) (i : Fin BOARD_ROWS) (j : Fin BOARD_COLS) :
    (PrintBoard board)[i.val]?.bind (fun row => row[j.val]?) = some (printCell board i j) := by
  fin_cases i <;> fin_cases j <;> rfl

theorem printCell_text (board : Board) (i : Fin BOARD_ROWS) (j : Fin BOARD_COLS) :
    (printCell board i j).1
      = if board i j = SPACE_EMPTY then " * " else setw 3 (toString (board i j)) := by
  simp only [printCell]
  split_ifs <;> rfl

theorem setw_eq (n : Nat) (s : String) :
    setw n s = String.mk (List.replicate (n - s.length) ' ' ++ s.data) := by
  apply String.ext
  simp only [setw, String.data_append]

theorem printBoard_solved_after_up :
    PrintBoard (ofCells 1 2 3 4 5 SPACE_EMPTY 7 8 6)
      = [[("  1", COLOR_GREEN), ("  2", COLOR_GREEN), ("  3", COLOR_GREEN)],
         [("  4", COLOR_GREEN), ("  5", COLOR_GREEN), (" * ", COLOR_RED)],
         [("  7", COLOR_GREEN), ("  8", COLOR_GREEN), ("  6", COLOR_RED)]] := by
  decide

theorem printBoard_wide_labels :
    PrintBoard (ofCells 12 (-7) 123 1234 0 SPACE_EMPTY 7 (-25) 9)
      = [[(" 12", COLOR_RED), (" -7", COLOR_RED), ("123", COLOR_RED)],
         [("1234", COLOR_RED), ("  0", COLOR_RED), (" * ", COLOR_RED)],
         [("  7", COLOR_GREEN), ("-25", COLOR_RED), ("  9", COLOR_GREEN)]] := by
  decide

theorem printCell_colour (board : Board) (i : Fin BOARD_ROWS) (j : Fin BOARD_COLS) :
    (printCell board i j).2
      = if board i j = (i.val : Int) * 3 + (j.val : Int) + 1 then COLOR_GREEN
        else COLOR_RED := by
  unfold printCell
  by_cases he : board i j = SPACE_EMPTY
  · have hne : ¬ board i j = (i.val : Int) * 3 + (j.val : Int) + 1 := by
      rw [he]
      unfold SPACE_EMPTY
      omega
    rw [if_pos he, if_neg hne]
  · rw [if_neg he]
    simp only [BOARD_COLS, Nat.cast_ofNat]
    split_ifs <;> rfl

/-! ## Lemmas on the parity of arrangements -/

theorem solvedBoard_injective :
    Function.Injective (fun p : Fin BOARD_ROWS × Fin BOARD_COLS => solvedBoard p.1 p.2) := by
  decide

theorem isArrangement_unique {board : Board}
    {σ τ : Equiv.Perm (Fin BOARD_ROWS × Fin BOARD_COLS)} (hσ : IsArrangement board σ)
    (hτ : IsArrangement board τ) : σ = τ := by
  apply Equiv.ext
  intro x
  exact solvedBoard_injective ((hσ x.1 x.2).symm.trans (hτ x.1 x.2))

theorem isArrangement_solvedBoard : IsArrangement solvedBoard 1 :=
  fun _ _ => rfl

theorem isArrangement_swapCells {board : Board}
    {σ : Equiv.Perm (Fin BOARD_ROWS × Fin BOARD_COLS)} (h : IsArrangement board σ)
    (p q : Fin BOARD_ROWS × Fin BOARD_COLS) :
    IsArrangement (swapCells board p q) (σ * Equiv.swap p q) := by
  intro a b
  simp only [swapCells, Equiv.Perm.mul_apply]
  exact h _ _

theorem emptyAt_unique {board : Board} {r r2 : Fin BOARD_ROWS} {c c2 : Fin BOARD_COLS}
    (h : EmptyAt board r c) (h2 : EmptyAt board r2 c2) : r2 = r ∧ c2 = c :=
  h.2 r2 c2 h2.1

theorem specSource_sum {direction : Int} {r : Fin BOARD_ROWS} {c : Fin BOARD_COLS}
    {s : Fin BOARD_ROWS × Fin BOARD_COLS} (h : specSource direction r c = some s) :
    s.1.val + s.2.val + 1 = r.val + c.val ∨ s.1.val + s.2.val = r.val + c.val + 1 := by
  unfold specSource at h
  split_ifs at h <;> simp only [Option.some.injEq, reduceCtorEq] at h <;> subst h <;>
    simp only <;> omega

/-- A successful move on an arrangement of the solved grid multiplies the
permutation by a transposition and moves the empty cell to a neighbour. -/
theorem moveTile_flips_parities {board : Board}
    {σ : Equiv.Perm (Fin BOARD_ROWS × Fin BOARD_COLS)} {r : Fin BOARD_ROWS}
    {c : Fin BOARD_COLS} {direction : Int} (hσ : IsArrangement board σ)
    (he : EmptyAt board r c) (hm : (moveTile board direction).1 = true) :
    ∃ (σ2 : Equiv.Perm (Fin BOARD_ROWS × Fin BOARD_COLS)) (r2 : Fin BOARD_ROWS)
      (c2 : Fin BOARD_COLS),
      IsArrangement (moveTile board direction).2 σ2 ∧
      EmptyAt (moveTile board direction).2 r2 c2 ∧
      Equiv.Perm.sign σ2 = - Equiv.Perm.sign σ ∧
      (r2.val + c2.val) % 2 ≠ (r.val + c.val) % 2 := by
  cases hs : specSource direction r c with
  | none =>
    rw [moveTile_of_emptyAt_none he hs] at hm
    cases hm
  | some s =>
    rw [moveTile_of_emptyAt_some he hs]
    refine ⟨σ * Equiv.swap (r, c) s, s.1, s.2, isArrangement_swapCells hσ _ _,
      swapCells_emptyAt he, ?_, ?_⟩
    · rw [Equiv.Perm.sign_mul, Equiv.Perm.sign_swap (Ne.symm (specSource_ne hs)), mul_neg,
        mul_one]
    · have := specSource_sum hs
      omega

/-- Along every sequence of moves from the solved grid the sign of the
arrangement equals the parity of the empty cell's row plus column. -/
theorem applyMoves_sign_invariant {board : Board}
    {σ : Equiv.Perm (Fin BOARD_ROWS × Fin BOARD_COLS)} {r : Fin BOARD_ROWS}
    {c : Fin BOARD_COLS} (hσ : IsArrangement board σ) (he : EmptyAt board r c)
    (hsign : Equiv.Perm.sign σ = (-1) ^ (r.val + c.val)) (dirs : List Int) :
    ∃ (σ2 : Equiv.Perm (Fin BOARD_ROWS × Fin BOARD_COLS)) (r2 : Fin BOARD_ROWS)
      (c2 : Fin BOARD_COLS),
      IsArrangement (applyMoves board dirs) σ2 ∧ EmptyAt (applyMoves board dirs) r2 c2 ∧
      Equiv.Perm.sign σ2 = (-1) ^ (r2.val + c2.val) := by
  induction dirs generalizing board σ r c with
  | nil => exact ⟨σ, r, c, hσ, he, hsign⟩
  | cons d ds ih =>
    have hcons : applyMoves board (d :: ds) = applyMoves (moveTile board d).2 ds := rfl
    rw [hcons]
    cases hs : specSource d r c with
    | none =>
      rw [moveTile_of_emptyAt_none he hs]
      exact ih hσ he hsign
    | some s =>
      rw [moveTile_of_emptyAt_some he hs]
      refine ih (isArrangement_swapCells hσ (r, c) s) (swapCells_emptyAt he) ?_
      rw [Equiv.Perm.sign_mul, Equiv.Perm.sign_swap (Ne.symm (specSource_ne hs)), hsign]
      rcases specSource_sum hs with h | h
      · rw [← h, pow_succ]
        simp only [mul_neg, mul_one, neg_neg]
      · rw [h, pow_succ]

theorem isArrangement_exchanged :
    IsArrangement (ofCells 1 2 3 4 5 6 8 7 SPACE_EMPTY) (Equiv.swap (2, 0) (2, 1)) := by
  intro a b
  fin_cases a <;> fin_cases b <;> decide

theorem exchanged_emptyAt : EmptyAt (ofCells 1 2 3 4 5 6 8 7 SPACE_EMPTY) 2 2 := by
  unfold EmptyAt
  decide

/-! ## The properties of the specification -/

/-- C1: on every grid reached from the `InitializeBoard` grid by a finite
sequence of `moveTile` calls with arbitrary integer direction codes, exactly
one cell equals `SPACE_EMPTY` and each label 1..8 is held by exactly one cell. -/
theorem reachable_one_empty_each_label_once (board : Board) (dirs : List Int) :
    countCells (applyMoves (InitializeBoard board) dirs) SPACE_EMPTY = 1 ∧
    (∃ r c, EmptyAt (applyMoves (InitializeBoard board) dirs) r c) ∧
    ∀ k : Fin 8, countCells (applyMoves (InitializeBoard board) dirs) ((k.val : Int) + 1) = 1 := by
  rw [initializeBoard_eq]
  have hp := applyMoves_cells_perm solvedBoard dirs
  refine ⟨?_, applyMoves_emptyAt ⟨2, 2, solvedBoard_emptyAt⟩ dirs, ?_⟩
  · unfold countCells
    rw [hp.count_eq]
    decide
  · intro k
    unfold countCells
    rw [hp.count_eq]
    fin_cases k <;> decide

/-- C2: `checkIfSolved` returns true exactly when the cell with row-major index
`k` holds `k+1` for every `k` in 0..7 and the cell (2,2) holds `SPACE_EMPTY`,
and it leaves the grid unchanged. -/
theorem checkIfSolved_iff_row_major (board : Board) :
    ((checkIfSolved board).1 = true ↔
      ((∀ k : Fin 8, board ⟨k.val / 3, by show k.val / 3 < 3; omega⟩
          ⟨k.val % 3, by show k.val % 3 < 3; omega⟩ = (k.val : Int) + 1) ∧
        board 2 2 = SPACE_EMPTY)) ∧
    (checkIfSolved board).2 = board := by
  refine ⟨?_, rfl⟩
  rw [checkIfSolved_true_iff]
  constructor
  · rintro ⟨h0, h1, h2, h3, h4, h5, h6, h7, h8⟩
    refine ⟨?_, h8⟩
    intro k
    fin_cases k <;>
      first | exact h0 | exact h1 | exact h2 | exact h3 | exact h4 | exact h5 | exact h6
            | exact h7
  · rintro ⟨hk, h8⟩
    exact ⟨hk 0, hk 1, hk 2, hk 3, hk 4, hk 5, hk 6, hk 7, h8⟩

/-- C3: on a grid with exactly one `SPACE_EMPTY` cell, at `(r, c)`, a move in
one of the four directions that is invalid at `(r, c)` returns false and leaves
all nine cells unchanged. -/
theorem moveTile_offGrid_unchanged (board : Board) (r : Fin BOARD_ROWS) (c : Fin BOARD_COLS)
    (direction : Int) (h : EmptyAt board r c) (hd : OffGrid direction r c) :
    moveTile board direction = (false, board) :=
  moveTile_of_emptyAt_none h (specSource_of_offGrid hd)

theorem moveTile_offGrid_unchanged_witness :
    moveTile solvedBoard MOVE_TILE_DOWN = (false, solvedBoard) :=
  moveTile_offGrid_unchanged solvedBoard 2 2 MOVE_TILE_DOWN solvedBoard_emptyAt
    (by unfold OffGrid; decide)

/-- C4: on a grid with exactly one `SPACE_EMPTY` cell, at `(r, c)`, a move in a
direction that is valid at `(r, c)` returns true, changes exactly the two cells
`(r, c)` and the new position of the empty cell, and keeps the multiset of the
nine cell values. -/
theorem moveTile_valid_changes_two_cells (board : Board) (r : Fin BOARD_ROWS)
    (c : Fin BOARD_COLS) (direction : Int) (h : EmptyAt board r c)
    (hv : ValidAt direction r c) :
    (moveTile board direction).1 = true ∧
    (∃ s, specSource direction r c = some s ∧ s ≠ (r, c) ∧
      ∀ i j, (moveTile board direction).2 i j ≠ board i j ↔ ((i, j) = (r, c) ∨ (i, j) = s)) ∧
    ((cells (moveTile board direction).2 : Multiset Int) = (cells board : Multiset Int)) := by
  obtain ⟨s, hs⟩ := specSource_of_validAt hv
  have hne := specSource_ne hs
  have hsrc := source_not_empty h hne
  refine ⟨by rw [moveTile_of_emptyAt_some h hs], ⟨s, hs, hne, ?_⟩,
    Multiset.coe_eq_coe.2 (moveTile_cells_perm board direction)⟩
  intro i j
  rw [moveTile_of_emptyAt_some h hs]
  show swapCells board (r, c) s i j ≠ board i j ↔ _
  by_cases h1 : (i, j) = (r, c)
  · obtain ⟨rfl, rfl⟩ := Prod.mk.inj h1
    have := swapCells_left board (i, j) s
    simp only at this
    rw [this, h.1]
    exact ⟨fun _ => Or.inl rfl, fun _ => hsrc⟩
  · by_cases h2 : (i, j) = s
    · subst h2
      have := swapCells_right board (r, c) (i, j)
      simp only at this hsrc
      rw [this, h.1]
      exact ⟨fun _ => Or.inr rfl, fun _ => Ne.symm hsrc⟩
    · rw [swapCells_of_ne board h1 h2]
      exact ⟨fun hc => absurd rfl hc, fun hc => absurd hc (not_or.2 ⟨h1, h2⟩)⟩

theorem moveTile_valid_changes_two_cells_witness :
    (moveTile solvedBoard MOVE_TILE_UP).1 = true ∧
    (∃ s, specSource MOVE_TILE_UP 2 2 = some s ∧ s ≠ (2, 2) ∧
      ∀ i j, (moveTile solvedBoard MOVE_TILE_UP).2 i j ≠ solvedBoard i j ↔
        ((i, j) = (2, 2) ∨ (i, j) = s)) ∧
    ((cells (moveTile solvedBoard MOVE_TILE_UP).2 : Multiset Int)
      = (cells solvedBoard : Multiset Int)) :=
  moveTile_valid_changes_two_cells solvedBoard 2 2 MOVE_TILE_UP solvedBoard_emptyAt
    (by unfold ValidAt; decide)

/-- C5: on a grid with exactly one `SPACE_EMPTY` cell, at `(r, c)`, a call of
`moveTile` that returns true has a source cell (Up: `(r-1, c)`, Down: `(r+1, c)`,
Left: `(r, c-1)`, Right: `(r, c+1)`); afterwards the source cell holds
`SPACE_EMPTY` and the cell `(r, c)` holds the former value of the source cell. -/
theorem moveTile_success_swaps_with_source (board : Board) (r : Fin BOARD_ROWS)
    (c : Fin BOARD_COLS) (direction : Int) (h : EmptyAt board r c)
    (hm : (moveTile board direction).1 = true) :
    ∃ s : Fin BOARD_ROWS × Fin BOARD_COLS,
      ((direction = MOVE_TILE_UP → s.1.val + 1 = r.val ∧ s.2 = c) ∧
       (direction = MOVE_TILE_DOWN → s.1.val = r.val + 1 ∧ s.2 = c) ∧
       (direction = MOVE_TILE_LEFT → s.1 = r ∧ s.2.val + 1 = c.val) ∧
       (direction = MOVE_TILE_RIGHT → s.1 = r ∧ s.2.val = c.val + 1)) ∧
      specSource direction r c = some s ∧
      (moveTile board direction).2 s.1 s.2 = SPACE_EMPTY ∧
      (moveTile board direction).2 r c = board s.1 s.2 := by
  cases hs : specSource direction r c with
  | none =>
    rw [moveTile_of_emptyAt_none h hs] at hm
    cases hm
  | some s =>
    refine ⟨s, specSource_coords hs, rfl, ?_, ?_⟩
    · rw [moveTile_of_emptyAt_some h hs]
      exact (swapCells_right board (r, c) s).trans h.1
    · rw [moveTile_of_emptyAt_some h hs]
      exact swapCells_left board (r, c) s

theorem moveTile_success_swaps_with_source_witness :
    ∃ s : Fin BOARD_ROWS × Fin BOARD_COLS,
      ((MOVE_TILE_LEFT = MOVE_TILE_UP → s.1.val + 1 = (2 : Fin BOARD_ROWS).val ∧ s.2 = 2) ∧
       (MOVE_TILE_LEFT = MOVE_TILE_DOWN → s.1.val = (2 : Fin BOARD_ROWS).val + 1 ∧ s.2 = 2) ∧
       (MOVE_TILE_LEFT = MOVE_TILE_LEFT → s.1 = 2 ∧ s.2.val + 1 = (2 : Fin BOARD_COLS).val) ∧
       (MOVE_TILE_LEFT = MOVE_TILE_RIGHT → s.1 = 2 ∧ s.2.val = (2 : Fin BOARD_COLS).val + 1)) ∧
      specSource MOVE_TILE_LEFT 2 2 = some s ∧
      (moveTile solvedBoard MOVE_TILE_LEFT).2 s.1 s.2 = SPACE_EMPTY ∧
      (moveTile solvedBoard MOVE_TILE_LEFT).2 2 2 = solvedBoard s.1 s.2 :=
  moveTile_success_swaps_with_source solvedBoard 2 2 MOVE_TILE_LEFT solvedBoard_emptyAt
    (by decide)

/-- C6, the claim as stated fails: the grid `[1,2,3] / [4,5,6] / [7,8,0]` has no
`SPACE_EMPTY` cell, so no move takes an empty cell off the grid, and `moveTile`
with the direction Up returns false on it (the "empty tile not found" exit). -/
theorem moveTile_false_without_boundary_violation :
    ¬ ((moveTile (ofCells 1 2 3 4 5 6 7 8 0) MOVE_TILE_UP).1 = false ↔
        ∃ r c, ofCells 1 2 3 4 5 6 7 8 0 r c = SPACE_EMPTY ∧ OffGrid MOVE_TILE_UP r c) := by
  intro hiff
  obtain ⟨r, c, hrc, _⟩ := hiff.1 (by decide)
  revert hrc
  fin_cases r <;> fin_cases c <;> decide

/-- C6 amended: for each of the four direction codes, on a grid with exactly one
`SPACE_EMPTY` cell `moveTile` returns false exactly when the move would take the
empty cell off the grid; on a grid with no `SPACE_EMPTY` cell it returns false
as well. -/
theorem moveTile_false_iff_offGrid (board : Board) (direction : Int)
    (hd : IsDirection direction) :
    (∀ r c, EmptyAt board r c →
      ((moveTile board direction).1 = false ↔ OffGrid direction r c)) ∧
    ((∀ i j, board i j ≠ SPACE_EMPTY) → (moveTile board direction).1 = false) := by
  constructor
  · intro r c h
    constructor
    · intro hm
      cases hs : specSource direction r c with
      | none => exact offGrid_of_specSource hd hs
      | some s =>
        rw [moveTile_of_emptyAt_some h hs] at hm
        cases hm
    · intro ho
      rw [moveTile_of_emptyAt_none h (specSource_of_offGrid ho)]
  · intro hne
    rw [moveTile_of_findEmpty_none ((findEmpty_eq_none_iff board).2 hne)]

theorem moveTile_false_iff_offGrid_witness :
    ((moveTile solvedBoard MOVE_TILE_RIGHT).1 = false ↔ OffGrid MOVE_TILE_RIGHT 2 2) ∧
    (moveTile (ofCells 1 2 3 4 5 6 7 8 0) MOVE_TILE_RIGHT).1 = false :=
  ⟨(moveTile_false_iff_offGrid solvedBoard MOVE_TILE_RIGHT
      (by unfold IsDirection; decide)).1 2 2 solvedBoard_emptyAt,
   (moveTile_false_iff_offGrid (ofCells 1 2 3 4 5 6 7 8 0) MOVE_TILE_RIGHT
      (by unfold IsDirection; decide)).2
      (by intro i j; fin_cases i <;> fin_cases j <;> decide)⟩

/-- C7: from every grid reached from the `InitializeBoard` grid by a sequence of
`moveTile` calls, and so from every grid left by `shuffleBoard`, some finite
sequence of `moveTile` calls leads to a grid on which `checkIfSolved` is true. -/
theorem reachable_is_solvable (board : Board) :
    (∀ dirs : List Int, ∃ back : List Int,
      (checkIfSolved (applyMoves (applyMoves (InitializeBoard board) dirs) back)).1 = true) ∧
    (∀ rand : Nat → Nat, ∃ back : List Int,
      (checkIfSolved (applyMoves (shuffleBoard (InitializeBoard board) rand) back)).1
        = true) := by
  have key : ∀ dirs : List Int, ∃ back : List Int,
      (checkIfSolved (applyMoves (applyMoves (InitializeBoard board) dirs) back)).1
        = true := by
    intro dirs
    obtain ⟨back, hb⟩ := applyMoves_undo (initializeBoard_emptyAt board) dirs
    refine ⟨back, ?_⟩
    rw [hb, checkIfSolved_iff_solvedBoard, initializeBoard_eq]
  refine ⟨key, ?_⟩
  intro rand
  rw [shuffleBoard_eq_applyMoves]
  exact key _

/-- C8: whatever the array held before, `InitializeBoard` leaves `i*3+j+1` in
every cell `(i, j)` other than `(2, 2)` and `SPACE_EMPTY` in `(2, 2)`, that is
the rows `[1,2,3] / [4,5,6] / [7,8,SPACE_EMPTY]`. -/
theorem initializeBoard_solved_layout (board : Board) :
    (∀ i j, InitializeBoard board i j =
      if i.val = 2 ∧ j.val = 2 then SPACE_EMPTY else (i.val : Int) * 3 + (j.val : Int) + 1) ∧
    cells (InitializeBoard board) = [1, 2, 3, 4, 5, 6, 7, 8, SPACE_EMPTY] := by
  refine ⟨?_, rfl⟩
  intro i j
  fin_cases i <;> fin_cases j <;> rfl

/-- C9: `checkIfSolved` returns true on the grid produced by `InitializeBoard`. -/
theorem checkIfSolved_initializeBoard (board : Board) :
    (checkIfSolved (InitializeBoard board)).1 = true := by
  rw [checkIfSolved_true_iff]
  exact ⟨rfl, rfl, rfl, rfl, rfl, rfl, rfl, rfl, rfl⟩

/-- C10: from the `InitializeBoard` grid, Up returns true and gives
`[1,2,3] / [4,5,EMPTY] / [7,8,6]`; Right on that grid returns false and changes
nothing; Down on it returns true and gives `[1,2,3] / [4,5,6] / [7,8,EMPTY]`, on
which `checkIfSolved` is true. -/
theorem concrete_scenario (board : Board) :
    moveTile (InitializeBoard board) MOVE_TILE_UP
      = (true, ofCells 1 2 3 4 5 SPACE_EMPTY 7 8 6) ∧
    moveTile (ofCells 1 2 3 4 5 SPACE_EMPTY 7 8 6) MOVE_TILE_RIGHT
      = (false, ofCells 1 2 3 4 5 SPACE_EMPTY 7 8 6) ∧
    moveTile (ofCells 1 2 3 4 5 SPACE_EMPTY 7 8 6) MOVE_TILE_DOWN
      = (true, ofCells 1 2 3 4 5 6 7 8 SPACE_EMPTY) ∧
    (checkIfSolved (ofCells 1 2 3 4 5 6 7 8 SPACE_EMPTY)).1 = true := by
  rw [initializeBoard_eq]
  decide

/-- C11: `shuffleBoard` leaves the grid obtained by 100 successive `moveTile`
calls with the directions `r_i % 4 + 1`, each one of the four direction codes; a
call that returns false leaves the grid as it was and is one of the 100. -/
theorem shuffleBoard_is_hundred_moves (board : Board) (rand : Nat → Nat) :
    shuffleBoard board rand
      = applyMoves board ((List.range 100).map (fun i => (rand i : Int) % 4 + 1)) ∧
    ((List.range 100).map (fun i => (rand i : Int) % 4 + 1)).length = 100 ∧
    (∀ i, IsDirection ((rand i : Int) % 4 + 1)) ∧
    (∀ (b : Board) (d : Int), (moveTile b d).1 = false → (moveTile b d).2 = b) := by
  refine ⟨shuffleBoard_eq_applyMoves board rand, ?_, fun i => isDirection_of_rand (rand i),
    moveTile_false_unchanged⟩
  simp only [List.length_map, List.length_range]

theorem shuffleBoard_is_hundred_moves_witness :
    (moveTile solvedBoard MOVE_TILE_DOWN).2 = solvedBoard :=
  (shuffleBoard_is_hundred_moves solvedBoard (fun _ => 1)).2.2.2 solvedBoard MOVE_TILE_DOWN
    (by decide)

/-- C12: on every grid obtained from the `InitializeBoard` grid by a sequence of
`moveTile` and `shuffleBoard` calls, the scan of `moveTile` finds an empty cell
at in-range indices, so the "empty tile not found" exit is not taken. -/
theorem empty_tile_always_found (board : Board) (calls : List Call) :
    ∃ (r : Fin BOARD_ROWS) (c : Fin BOARD_COLS),
      findEmpty (applyCalls (InitializeBoard board) calls) = some (r, c) ∧
      r.val < BOARD_ROWS ∧ c.val < BOARD_COLS ∧
      applyCalls (InitializeBoard board) calls r c = SPACE_EMPTY ∧
      findEmpty (applyCalls (InitializeBoard board) calls) ≠ none := by
  obtain ⟨r, c, h⟩ := applyCalls_emptyAt (initializeBoard_emptyAt board) calls
  have hf := findEmpty_of_emptyAt h
  refine ⟨r, c, hf, r.isLt, c.isLt, h.1, ?_⟩
  rw [hf]
  exact Option.some_ne_none _

/-- C13, the claim as stated fails: the grid `[1,2,3] / [4,5,6] / [7,8,0]` has no
`SPACE_EMPTY` cell, and `moveTile` on it returns false with the grid unchanged,
which is the outcome of the boundary-violation move Down on the solved grid;
`main` writes the same "OUT OF BOUNDS" notice in both cases. -/
theorem not_found_same_outcome_as_boundary_violation :
    countCells (ofCells 1 2 3 4 5 6 7 8 0) SPACE_EMPTY = 0 ∧
    (EmptyAt solvedBoard 2 2 ∧ OffGrid MOVE_TILE_DOWN 2 2) ∧
    (moveTile (ofCells 1 2 3 4 5 6 7 8 0) MOVE_TILE_UP).1
      = (moveTile solvedBoard MOVE_TILE_DOWN).1 ∧
    (moveTile (ofCells 1 2 3 4 5 6 7 8 0) MOVE_TILE_UP).2 = ofCells 1 2 3 4 5 6 7 8 0 ∧
    (moveTile solvedBoard MOVE_TILE_DOWN).2 = solvedBoard ∧
    (loopBody (ofCells 1 2 3 4 5 6 7 8 0) 'w' []).outOfBounds
      = (loopBody solvedBoard 's' []).outOfBounds := by
  refine ⟨by decide, ⟨solvedBoard_emptyAt, by unfold OffGrid; decide⟩, by decide, by decide,
    by decide, by decide⟩

/-- C13 amended: on a grid with no `SPACE_EMPTY` cell `moveTile` returns false
and leaves the grid unchanged, for every direction code, as it does for a
boundary violation; the body of the game loop then writes "OUT OF BOUNDS" for
every recognized key. -/
theorem not_found_returns_false_unchanged (board : Board) (direction : Int)
    (keyStroke : Char) (keys : List Char) (h : ∀ i j, board i j ≠ SPACE_EMPTY) :
    moveTile board direction = (false, board) ∧
    (keyDirection keyStroke ≠ DIRECTION_UNDEFINED →
      (loopBody board keyStroke keys).outOfBounds = true ∧
      (loopBody board keyStroke keys).board = board) := by
  have hm : ∀ d, moveTile board d = (false, board) := fun d =>
    moveTile_of_findEmpty_none ((findEmpty_eq_none_iff board).2 h) d
  refine ⟨hm direction, fun hk => ?_⟩
  have := loopBody_of_failed keys hk (hm _)
  exact ⟨this.1, this.2.1⟩

theorem not_found_returns_false_unchanged_witness :
    moveTile (ofCells 1 2 3 4 5 6 7 8 0) MOVE_TILE_LEFT = (false, ofCells 1 2 3 4 5 6 7 8 0) ∧
    (loopBody (ofCells 1 2 3 4 5 6 7 8 0) 'a' ['d']).outOfBounds = true ∧
    (loopBody (ofCells 1 2 3 4 5 6 7 8 0) 'a' ['d']).board = ofCells 1 2 3 4 5 6 7 8 0 :=
  ⟨(not_found_returns_false_unchanged (ofCells 1 2 3 4 5 6 7 8 0) MOVE_TILE_LEFT 'a' ['d']
      (by intro i j; fin_cases i <;> fin_cases j <;> decide)).1,
   (not_found_returns_false_unchanged (ofCells 1 2 3 4 5 6 7 8 0) MOVE_TILE_LEFT 'a' ['d']
      (by intro i j; fin_cases i <;> fin_cases j <;> decide)).2 (by decide)⟩

/-- C14: on a grid with exactly one `SPACE_EMPTY` cell, when `moveTile` with the
direction `d` returns true, `moveTile` on the resulting grid with the opposite
direction (Up and Down, Left and Right exchanged) returns true and gives back
the original grid. -/
theorem moveTile_then_opposite_restores (board : Board) (r : Fin BOARD_ROWS)
    (c : Fin BOARD_COLS) (direction : Int) (h : EmptyAt board r c)
    (hm : (moveTile board direction).1 = true) :
    moveTile (moveTile board direction).2 (oppositeDirection direction) = (true, board) ∧
    oppositeDirection MOVE_TILE_UP = MOVE_TILE_DOWN ∧
    oppositeDirection MOVE_TILE_DOWN = MOVE_TILE_UP ∧
    oppositeDirection MOVE_TILE_LEFT = MOVE_TILE_RIGHT ∧
    oppositeDirection MOVE_TILE_RIGHT = MOVE_TILE_LEFT := by
  refine ⟨?_, by decide, by decide, by decide, by decide⟩
  cases hs : specSource direction r c with
  | none =>
    rw [moveTile_of_emptyAt_none h hs] at hm
    cases hm
  | some s => exact moveTile_opposite h hs

theorem moveTile_then_opposite_restores_witness :
    moveTile (moveTile solvedBoard MOVE_TILE_UP).2 (oppositeDirection MOVE_TILE_UP)
      = (true, solvedBoard) ∧
    oppositeDirection MOVE_TILE_UP = MOVE_TILE_DOWN ∧
    oppositeDirection MOVE_TILE_DOWN = MOVE_TILE_UP ∧
    oppositeDirection MOVE_TILE_LEFT = MOVE_TILE_RIGHT ∧
    oppositeDirection MOVE_TILE_RIGHT = MOVE_TILE_LEFT :=
  moveTile_then_opposite_restores solvedBoard 2 2 MOVE_TILE_UP solvedBoard_emptyAt (by decide)

/-- C16: the key is mapped `w` to Up, `s` to Down, `a` to Left, `d` to Right and
every other character, the upper-case letters included, to
`DIRECTION_UNDEFINED`; for an unrecognized key the body of the game loop makes
no call of `moveTile` and leaves the grid unchanged. -/
theorem unrecognized_key_leaves_grid (board : Board) (keyStroke : Char) (keys : List Char)
    (h : keyStroke ≠ 'w' ∧ keyStroke ≠ 's' ∧ keyStroke ≠ 'a' ∧ keyStroke ≠ 'd') :
    (keyDirection 'w' = MOVE_TILE_UP ∧ keyDirection 's' = MOVE_TILE_DOWN ∧
      keyDirection 'a' = MOVE_TILE_LEFT ∧ keyDirection 'd' = MOVE_TILE_RIGHT) ∧
    (keyDirection 'W' = DIRECTION_UNDEFINED ∧ keyDirection 'S' = DIRECTION_UNDEFINED ∧
      keyDirection 'A' = DIRECTION_UNDEFINED ∧ keyDirection 'D' = DIRECTION_UNDEFINED) ∧
    keyDirection keyStroke = DIRECTION_UNDEFINED ∧
    (loopBody board keyStroke keys).moveCalls = [] ∧
    (loopBody board keyStroke keys).board = board ∧
    (loopBody board keyStroke keys).keys = keys ∧
    (loopBody board keyStroke keys).outOfBounds = false := by
  have hk := keyDirection_of_unrecognized h
  rw [loopBody_of_undefined keys hk]
  exact ⟨by decide, by decide, hk, rfl, rfl, rfl, rfl⟩

theorem unrecognized_key_leaves_grid_witness :
    (keyDirection 'w' = MOVE_TILE_UP ∧ keyDirection 's' = MOVE_TILE_DOWN ∧
      keyDirection 'a' = MOVE_TILE_LEFT ∧ keyDirection 'd' = MOVE_TILE_RIGHT) ∧
    (keyDirection 'W' = DIRECTION_UNDEFINED ∧ keyDirection 'S' = DIRECTION_UNDEFINED ∧
      keyDirection 'A' = DIRECTION_UNDEFINED ∧ keyDirection 'D' = DIRECTION_UNDEFINED) ∧
    keyDirection 'x' = DIRECTION_UNDEFINED ∧
    (loopBody (ofCells 1 2 3 4 5 SPACE_EMPTY 7 8 6) 'x' ['s']).moveCalls = [] ∧
    (loopBody (ofCells 1 2 3 4 5 SPACE_EMPTY 7 8 6) 'x' ['s']).board
      = ofCells 1 2 3 4 5 SPACE_EMPTY 7 8 6 ∧
    (loopBody (ofCells 1 2 3 4 5 SPACE_EMPTY 7 8 6) 'x' ['s']).keys = ['s'] ∧
    (loopBody (ofCells 1 2 3 4 5 SPACE_EMPTY 7 8 6) 'x' ['s']).outOfBounds = false :=
  unrecognized_key_leaves_grid (ofCells 1 2 3 4 5 SPACE_EMPTY 7 8 6) 'x' ['s'] (by decide)

/-- C20: for every grid and every direction code other than the four codes
1, 2, 3, 4 (`DIRECTION_UNDEFINED` among them), `moveTile` returns false and
leaves every cell unchanged. -/
theorem moveTile_other_code_unchanged (board : Board) (direction : Int)
    (h : ¬ IsDirection direction) :
    moveTile board direction = (false, board) ∧ ¬ IsDirection DIRECTION_UNDEFINED := by
  refine ⟨moveTile_of_not_direction board h, ?_⟩
  unfold IsDirection
  decide

theorem moveTile_other_code_unchanged_witness :
    moveTile solvedBoard DIRECTION_UNDEFINED = (false, solvedBoard) ∧
    ¬ IsDirection DIRECTION_UNDEFINED :=
  moveTile_other_code_unchanged solvedBoard DIRECTION_UNDEFINED
    (by unfold IsDirection; decide)

/-- C17: `PrintBoard` writes three rows of three cells; the text of a cell is
the empty marker `*` between two blanks when the cell holds `SPACE_EMPTY`, and
otherwise the decimal digits of its number preceded by the blanks that fill a
field of width 3 (never truncated); the colour is `COLOR_GREEN` exactly when the
cell `(i, j)` holds `i*3+j+1`, and `COLOR_RED` otherwise.  Two grids are written
out in full: the solved grid after Up, and a grid with wide and negative
numbers. -/
theorem printBoard_text_and_colour (board : Board) (i : Fin BOARD_ROWS) (j : Fin BOARD_COLS) :
    (∃ (text : String) (colour : Nat),
      (PrintBoard board)[i.val]?.bind (fun row => row[j.val]?) = some (text, colour) ∧
      text = (if board i j = SPACE_EMPTY then " * "
        else String.mk (List.replicate (3 - (toString (board i j)).length) ' '
          ++ (toString (board i j)).data)) ∧
      (colour = COLOR_GREEN ↔ board i j = (i.val : Int) * 3 + (j.val : Int) + 1) ∧
      (colour = COLOR_RED ↔ board i j ≠ (i.val : Int) * 3 + (j.val : Int) + 1)) ∧
    PrintBoard (ofCells 1 2 3 4 5 SPACE_EMPTY 7 8 6)
      = [[("  1", 10), ("  2", 10), ("  3", 10)],
         [("  4", 10), ("  5", 10), (" * ", 12)],
         [("  7", 10), ("  8", 10), ("  6", 12)]] ∧
    PrintBoard (ofCells 12 (-7) 123 1234 0 SPACE_EMPTY 7 (-25) 9)
      = [[(" 12", 12), (" -7", 12), ("123", 12)],
         [("1234", 12), ("  0", 12), (" * ", 12)],
         [("  7", 10), ("-25", 12), ("  9", 10)]] ∧
    COLOR_GREEN = 10 ∧ COLOR_RED = 12 := by
  refine ⟨⟨(printCell board i j).1, (printCell board i j).2, printBoard_cell board i j,
    ?_, ?_, ?_⟩, printBoard_solved_after_up, printBoard_wide_labels, rfl, rfl⟩
  · rw [printCell_text, setw_eq]
  · rw [printCell_colour]
    split_ifs with h
    · exact ⟨fun _ => h, fun _ => rfl⟩
    · exact ⟨fun hc => absurd hc (by decide), fun hc => absurd hc h⟩
  · rw [printCell_colour]
    split_ifs with h
    · exact ⟨fun hc => absurd hc (by decide), fun hc => absurd h hc⟩
    · exact ⟨fun _ => h, fun _ => rfl⟩

/-- C18: some sequence of `rand()` results, every draw of which maps to Down or
Right, makes `shuffleBoard` return the `InitializeBoard` grid unchanged:
`checkIfSolved` is true on it and the game loop exits without entering its
body or reading a key. -/
theorem shuffleBoard_can_leave_solved (board : Board) (keys : List Char) :
    ∃ rand : Nat → Nat,
      (∀ i, (rand i : Int) % 4 + 1 = MOVE_TILE_DOWN ∨ (rand i : Int) % 4 + 1 = MOVE_TILE_RIGHT) ∧
      (checkIfSolved (shuffleBoard (InitializeBoard board) rand)).1 = true ∧
      gameLoop (shuffleBoard (InitializeBoard board) rand) keys
        = ⟨solvedBoard, keys, [], true⟩ := by
  have hdraw : ∀ i : Nat, (((fun _ => 1 : Nat → Nat) i : Nat) : Int) % 4 + 1 = MOVE_TILE_DOWN ∨
      (((fun _ => 1 : Nat → Nat) i : Nat) : Int) % 4 + 1 = MOVE_TILE_RIGHT :=
    fun _ => Or.inl rfl
  have hb : shuffleBoard (InitializeBoard board) (fun _ => 1) = solvedBoard := by
    rw [shuffleBoard_eq_applyMoves, initializeBoard_eq]
    apply applyMoves_down_right
    intro d hd
    obtain ⟨i, _, rfl⟩ := List.mem_map.1 hd
    exact hdraw i
  have hs : (checkIfSolved solvedBoard).1 = true := (checkIfSolved_iff_solvedBoard _).2 rfl
  refine ⟨fun _ => 1, hdraw, ?_, ?_⟩
  · rw [hb]; exact hs
  · rw [hb]; exact gameLoop_of_solved hs keys

/-- C19: no finite sequence of `moveTile` calls from the `InitializeBoard` grid
gives `[1,2,3] / [4,5,6] / [8,7,SPACE_EMPTY]`; a successful move on a reached
grid flips the sign of the permutation that arranges the nine cell values and
the parity of the empty cell's row plus column. -/
theorem exchanged_tiles_unreachable (board : Board) (dirs : List Int) (direction : Int) :
    applyMoves (InitializeBoard board) dirs ≠ ofCells 1 2 3 4 5 6 8 7 SPACE_EMPTY ∧
    ((moveTile (applyMoves (InitializeBoard board) dirs) direction).1 = true →
      ∃ (σ σ2 : Equiv.Perm (Fin BOARD_ROWS × Fin BOARD_COLS)) (r r2 : Fin BOARD_ROWS)
        (c c2 : Fin BOARD_COLS),
        IsArrangement (applyMoves (InitializeBoard board) dirs) σ ∧
        EmptyAt (applyMoves (InitializeBoard board) dirs) r c ∧
        IsArrangement (moveTile (applyMoves (InitializeBoard board) dirs) direction).2 σ2 ∧
        EmptyAt (moveTile (applyMoves (InitializeBoard board) dirs) direction).2 r2 c2 ∧
        Equiv.Perm.sign σ2 = - Equiv.Perm.sign σ ∧
        (r2.val + c2.val) % 2 ≠ (r.val + c.val) % 2) := by
  rw [initializeBoard_eq]
  obtain ⟨σ, r, c, hσ, he, hsign⟩ :=
    applyMoves_sign_invariant isArrangement_solvedBoard solvedBoard_emptyAt (by decide) dirs
  constructor
  · intro hg
    rw [hg] at hσ he
    have h1 := isArrangement_unique hσ isArrangement_exchanged
    obtain ⟨hr, hc⟩ := emptyAt_unique he exchanged_emptyAt
    subst h1
    rw [← hr, ← hc] at hsign
    revert hsign
    decide
  · intro hm
    obtain ⟨σ2, r2, c2, h1, h2, h3, h4⟩ := moveTile_flips_parities hσ he hm
    exact ⟨σ, σ2, r, r2, c, c2, hσ, he, h1, h2, h3, h4⟩

theorem exchanged_tiles_unreachable_witness :
    ∃ (σ σ2 : Equiv.Perm (Fin BOARD_ROWS × Fin BOARD_COLS)) (r r2 : Fin BOARD_ROWS)
      (c c2 : Fin BOARD_COLS),
      IsArrangement (applyMoves (InitializeBoard solvedBoard) [MOVE_TILE_UP]) σ ∧
      EmptyAt (applyMoves (InitializeBoard solvedBoard) [MOVE_TILE_UP]) r c ∧
      IsArrangement
        (moveTile (applyMoves (InitializeBoard solvedBoard) [MOVE_TILE_UP]) MOVE_TILE_LEFT).2
        σ2 ∧
      EmptyAt
        (moveTile (applyMoves (InitializeBoard solvedBoard) [MOVE_TILE_UP]) MOVE_TILE_LEFT).2
        r2 c2 ∧
      Equiv.Perm.sign σ2 = - Equiv.Perm.sign σ ∧
      (r2.val + c2.val) % 2 ≠ (r.val + c.val) % 2 :=
  (exchanged_tiles_unreachable solvedBoard [MOVE_TILE_UP] MOVE_TILE_LEFT).2 (by decide)

end SlidingPuzzle
